import Mathlib

/-!
Verification development for the group-tree extractor of the ecl2df
repository (src/ecl2df/gruptree2df.py).  The Python functions deck2df and
gruptreedf2dict are shallowly embedded as executable Lean definitions:
the keyword scan becomes explicit state passing over a ScanState record,
pandas rows become a Row structure, the insertion-ordered Python dict of
edges becomes an association list with dict semantics, and calendar dates
are represented by their proleptic Gregorian ordinals (the same integers
that datetime.date.toordinal produces), so that adding a timedelta of n
days is ordinary addition of n.
-/

namespace Ecl2df

/-! ### Calendar dates

A datetime.date value is modelled by its proleptic Gregorian ordinal
(datetime.date(1, 1, 1).toordinal() = 1).  The embedding assumes the
year/month/day fields denote a valid calendar date, as invalid fields
make the Python constructor raise before any logic modelled here runs.
-/

/-- True when the year is a leap year in the proleptic Gregorian calendar. -/
def isLeap (y : Nat) : Bool :=
  y % 4 == 0 && (y % 100 != 0 || y % 400 == 0)

/-- Days in the year strictly before month m (1-based), for year y. -/
def daysBeforeMonth (y m : Nat) : Nat :=
  let base := [0, 31, 59, 90, 120, 151, 181, 212, 243, 273, 304, 334].getD (m - 1) 0
  if 2 < m && isLeap y then base + 1 else base

/-- Proleptic Gregorian ordinal of the date y-m-d, as in datetime.date.toordinal. -/
def toOrdinal (y m d : Nat) : Nat :=
  365 * (y - 1) + (y - 1) / 4 - (y - 1) / 100 + (y - 1) / 400 + daysBeforeMonth y m + d

/-- Ordinal of the fallback date 1900-01-01 used when no date has been parsed. -/
def epoch1900 : Nat := toOrdinal 1900 1 1

/-! ### Deck model

A parsed deck is a list of keyword records.  Field values of GRUPNET
records are strings or numbers.  The MONTH field of a DATES or START
record is carried as the month number already produced by
parse_ecl_month (defined in the common module, which maps the Eclipse
month mnemonics JAN..DEC to 1..12); this mapping is treated as part of
deck parsing, which is outside the extractor.
-/

/-- A value stored in a parsed GRUPNET record field. -/
inductive Val where
  | str : String → Val
  | num : Int → Val
deriving DecidableEq, Repr

/-- One record of a DATES or START keyword: DAY, MONTH (as number), YEAR. -/
structure DatesRec where
  day : Nat
  month : Nat
  year : Nat
deriving DecidableEq, Repr

/-- A keyword of the deck, carrying its parsed records.  Keywords other
than the six recognized ones are ignored by the scan and collapse to one
constructor. -/
inductive Kw where
  | dates (recs : List DatesRec)
  | start (recs : List DatesRec)
  | tstep (recs : List (List Int))
  | gruptree (recs : List (String × String))
  | welspecs (recs : List (String × String))
  | grupnet (recs : List (List (String × Val)))
  | other
deriving DecidableEq, Repr

/-- The GRUPNET item names read from each GRUPNET record. -/
def GRUPNETKEYS : List String :=
  ["NAME", "TERMINAL_PRESSURE", "VFP_TABLE", "ALQ", "SUB_SEA_MANIFOLD",
   "LIFT_GAS_FLOW_THROUGH", "ALQ_SURFACE_EQV"]

/-- One output row of the dataframe built by deck2df: DATE, CHILD, PARENT,
TYPE, plus the attribute columns joined in from the GRUPNET table (absent
columns, which pandas renders as NaN, are simply missing from the list). -/
structure Row where
  date : Option Nat
  child : String
  parent : String
  ttype : String
  attrs : List (String × Val)
deriving DecidableEq, Repr

/-- Failure modes of the scan.  invalidTstep is the logging.critical early
return on a non-positive summed TSTEP; noneDateAdvance is the uncaught
TypeError raised by advancing the date before any date is established. -/
inductive DeckError where
  | invalidTstep (days : Int)
  | noneDateAdvance
deriving DecidableEq, Repr

/-- The mutable state of the deck2df scan loop. -/
structure ScanState where
  date : Option Nat
  gruptreerecords : List Row
  grupnetrecords : List (List (String × Val))
  currentedges : List ((String × String) × String)
  found_gruptree : Bool
  found_welspecs : Bool
  found_grupnet : Bool
deriving DecidableEq, Repr

/-- Python dict insertion for the currentedges mapping: overwrite in place
on exact key match, otherwise append at the end (insertion order). -/
def dictInsert (m : List ((String × String) × String)) (k : String × String)
    (v : String) : List ((String × String) × String) :=
  if m.any (fun e => decide (e.1 = k)) then
    m.map (fun e => if e.1 = k then (k, v) else e)
  else m ++ [(k, v)]

/-- The fields kept from one GRUPNET record: for each recognized item
name, the value when the item is present and non-defaulted (the
try/except ValueError plus truthiness test in the source). -/
def grupnetData (rec : List (String × Val)) : List (String × Val) :=
  GRUPNETKEYS.filterMap (fun k => (rec.lookup k).map (fun v => (k, v)))

/-- Lookup in the GRUPNET attribute table.  The table is the dataframe of
all accumulated records with drop_duplicates(subset NAME, keep last) and
NAME as index, so looking a name up returns the last accumulated record
whose NAME field equals it, if any. -/
def grupnetLookup (records : List (List (String × Val))) (name : String) :
    Option (List (String × Val)) :=
  records.reverse.find? (fun r => decide (r.lookup "NAME" = some (Val.str name)))

/-- Build one output row for an edge: the date stamp, child, parent, the
origin tag, and the attribute columns of the current GRUPNET table entry
for the child (minus the NAME index column), when present. -/
def mkRow (date : Option Nat) (grupnetrecords : List (List (String × Val)))
    (edge : (String × String) × String) : Row :=
  { date := date
    child := edge.1.1
    parent := edge.1.2
    ttype := edge.2
    attrs :=
      match grupnetLookup grupnetrecords edge.1.1 with
      | some r => r.filter (fun kv => decide (kv.1 ≠ "NAME"))
      | none => [] }

/-- The dump performed at the start of every DATES/START/TSTEP keyword:
when the edge mapping is non-empty and one of the changed flags is set,
append one row per edge stamped with the current date (falling back to
1900-01-01 when no date is established yet) and clear the flags. -/
def emitSnapshot (st : ScanState) : ScanState :=
  if !st.currentedges.isEmpty &&
      (st.found_gruptree || st.found_welspecs || st.found_grupnet) then
    let d := st.date.getD epoch1900
    { st with
      date := some d
      gruptreerecords := st.gruptreerecords ++
        st.currentedges.map (mkRow (some d) st.grupnetrecords)
      found_gruptree := false
      found_welspecs := false
      found_grupnet := false }
  else st

/-- Process the records of a DATES or START keyword: each record sets the
current date absolutely; the last record wins. -/
def applyDates (st : ScanState) : List DatesRec → ScanState
  | [] => st
  | r :: rest =>
      applyDates { st with date := some (toOrdinal r.year r.month r.day) } rest

/-- Process the records of a TSTEP keyword: each record advances the date
by the sum of its step list (days).  A non-positive sum is the fatal
logging.critical early return; advancing with no date established is the
TypeError of None plus timedelta. -/
def applyTstep (st : ScanState) : List (List Int) → Except DeckError ScanState
  | [] => Except.ok st
  | steplist :: rest =>
      let days := steplist.sum
      if days ≤ 0 then Except.error (DeckError.invalidTstep days)
      else
        match st.date with
        | none => Except.error DeckError.noneDateAdvance
        | some d => applyTstep { st with date := some (d + days.toNat) } rest

/-- One iteration of the deck2df scan loop over a single keyword. -/
def stepKw (welspecs : Bool) (st : ScanState) (kw : Kw) :
    Except DeckError ScanState :=
  match kw with
  | .dates recs => Except.ok (applyDates (emitSnapshot st) recs)
  | .start recs => Except.ok (applyDates (emitSnapshot st) recs)
  | .tstep recs => applyTstep (emitSnapshot st) recs
  | .gruptree recs =>
      Except.ok { st with
        found_gruptree := true
        currentedges :=
          recs.foldl (fun m e => dictInsert m e "GRUPTREE") st.currentedges }
  | .welspecs recs =>
      if welspecs then
        Except.ok { st with
          found_welspecs := true
          currentedges :=
            recs.foldl (fun m e => dictInsert m e "WELSPECS") st.currentedges }
      else Except.ok st
  | .grupnet recs =>
      Except.ok { st with
        found_grupnet := true
        grupnetrecords := st.grupnetrecords ++ recs.map grupnetData }
  | .other => Except.ok st

/-- The scan loop: process the keywords in order, stopping at the first
failure. -/
def scanKws (welspecs : Bool) (st : ScanState) : List Kw → Except DeckError ScanState
  | [] => Except.ok st
  | kw :: rest =>
      match stepKw welspecs st kw with
      | Except.error e => Except.error e
      | Except.ok st' => scanKws welspecs st' rest

/-- The initial scan state for a given startdate argument. -/
def initState (startdate : Option Nat) : ScanState :=
  { date := startdate
    gruptreerecords := []
    grupnetrecords := []
    currentedges := []
    found_gruptree := false
    found_welspecs := false
    found_grupnet := false }

/-- Run the whole scan over a deck. -/
def scanDeck (deck : List Kw) (startdate : Option Nat) (welspecs : Bool) :
    Except DeckError ScanState :=
  scanKws welspecs (initState startdate) deck

/-- The final dump after the loop: tree information found after the last
date statement is stored, under the last known date, when a GRUPTREE or
WELSPECS has been seen since the last dump. -/
def finishScan (st : ScanState) : List Row :=
  if st.found_gruptree || st.found_welspecs then
    st.gruptreerecords ++ st.currentedges.map (mkRow st.date st.grupnetrecords)
  else st.gruptreerecords

/-- deck2df: extract all group information from a deck as a list of edge
rows (the rows of the returned dataframe, in order). -/
def deck2df (deck : List Kw) (startdate : Option Nat) (welspecs : Bool) :
    Except DeckError (List Row) :=
  (scanDeck deck startdate welspecs).map finishScan

/-! ### Instrumented scan for the date-monotonicity property

The instrumented step stepKwG is the same scan carrying one extra ghost
Boolean that records whether every absolute date assignment performed by a
DATES or START record was at least the date current at that moment.  The
ghost flag influences nothing; the projection lemma stepKwG_fst below
shows the instrumented scan computes exactly stepKw on the state part.
-/

/-- applyDates carrying the ghost monotonicity flag: each record checks
the new absolute date against the date it replaces. -/
def applyDatesG (st : ScanState) (g : Bool) : List DatesRec → ScanState × Bool
  | [] => (st, g)
  | r :: rest =>
      let nd := toOrdinal r.year r.month r.day
      let ok :=
        match st.date with
        | none => true
        | some c => decide (c ≤ nd)
      applyDatesG { st with date := some nd } (g && ok) rest

/-- One instrumented scan iteration. -/
def stepKwG (welspecs : Bool) (p : ScanState × Bool) (kw : Kw) :
    Except DeckError (ScanState × Bool) :=
  match kw with
  | .dates recs => Except.ok (applyDatesG (emitSnapshot p.1) p.2 recs)
  | .start recs => Except.ok (applyDatesG (emitSnapshot p.1) p.2 recs)
  | _ => (stepKw welspecs p.1 kw).map (fun st => (st, p.2))

/-- The instrumented scan loop. -/
def scanKwsG (welspecs : Bool) (p : ScanState × Bool) :
    List Kw → Except DeckError (ScanState × Bool)
  | [] => Except.ok p
  | kw :: rest =>
      match stepKwG welspecs p kw with
      | Except.error e => Except.error e
      | Except.ok p' => scanKwsG welspecs p' rest

/-- Whether every absolute date assignment in a run of the scan was
non-decreasing (vacuously true for runs that fail). -/
def deckDatesMonotone (deck : List Kw) (startdate : Option Nat)
    (welspecs : Bool) : Bool :=
  match scanKwsG welspecs (initState startdate, true) deck with
  | Except.ok p => p.2
  | Except.error _ => true

/-! ### gruptreedf2dict: edge rows to a nested forest

The Python function builds, by mutation of a defaultdict, for every name
the dictionary mapping each of its children (per the edge list) to that
child's own dictionary.  The resulting possibly shared structure is
represented here by unfolding it into a tree, fuel-bounded by the number
of distinct edges plus two, which is enough to expose every reachable
edge (chains of distinct edges are no longer than the edge count).
-/

/-- A nested dictionary tree: a node holds the ordered mapping from child
name to child subtree. -/
inductive GTree where
  | node : List (String × GTree) → GTree

/-- The (CHILD, PARENT) pairs of the edge rows, in row order. -/
def edgesOf (rows : List Row) : List (String × String) :=
  rows.map (fun r => (r.child, r.parent))

/-- Helper for dedupKeepFirst: drop elements already seen, in order. -/
def dedupAux {α : Type} [DecidableEq α] (seen : List α) : List α → List α
  | [] => []
  | e :: rest =>
      if e ∈ seen then dedupAux seen rest else e :: dedupAux (e :: seen) rest

/-- Remove duplicates keeping the first occurrence of each element, the
key order a Python dict produces under repeated assignment. -/
def dedupKeepFirst {α : Type} [DecidableEq α] (l : List α) : List α :=
  dedupAux [] l

/-- The nested dictionary of one name, unfolded to the given fuel: its
children per the edge list, each mapped to its own unfolding. -/
def subtree (edges : List (String × String)) : Nat → String → GTree
  | 0, _ => .node []
  | f + 1, name =>
      .node ((edges.filter (fun e => decide (e.2 = name))).map
        (fun e => (e.1, subtree edges f e.1)))

/-- The roots: names appearing as a parent of some edge but never as a
child (the set difference of the Python source, materialized in first
occurrence order). -/
def rootsOf (edges : List (String × String)) : List String :=
  dedupKeepFirst ((edges.map (fun e => e.2)).filter
    (fun p => decide (p ∉ edges.map (fun e => e.1))))

/-- gruptreedf2dict: convert the edge rows of one date into the list of
nested dictionaries the Python function returns.  Note the inner
comprehension variable shadows the loop variable in the source, so every
appended mapping ranges over all roots. -/
def gruptreedf2dict (rows : List Row) : List (List (String × GTree)) :=
  if rows.isEmpty then []
  else
    let edges := dedupKeepFirst (edgesOf rows)
    let roots := rootsOf edges
    let fuel := edges.length + 2
    roots.map (fun _ => roots.map (fun r => (r, subtree edges fuel r)))

mutual

/-- Collect the (child, parent) pairs appearing in a subtree whose root is
the given parent name. -/
def treePairs (parent : String) : GTree → List (String × String)
  | .node ch => childPairs parent ch

/-- Collect the pairs contributed by a children mapping of a parent. -/
def childPairs (parent : String) : List (String × GTree) → List (String × String)
  | [] => []
  | (c, t) :: rest => (c, parent) :: (treePairs c t ++ childPairs parent rest)

end

/-- Collect all (child, parent) pairs of the returned forest. -/
def forestPairs (trees : List (List (String × GTree))) : List (String × String) :=
  trees.flatMap (fun d => d.flatMap (fun nt => treePairs nt.1 nt.2))

/-- True when the name is a root of the edge list. -/
def isRoot (edges : List (String × String)) (name : String) : Bool :=
  edges.any (fun e => decide (e.2 = name)) &&
    !edges.any (fun e => decide (e.1 = name))

/-- Fuel-bounded check that following parent links from a name reaches a
root of the edge list. -/
def upchain (edges : List (String × String)) : Nat → String → Bool
  | 0, name => isRoot edges name
  | f + 1, name =>
      isRoot edges name ||
        edges.any (fun e => decide (e.1 = name) && upchain edges f e.2)

/-- True when the deck contains a TSTEP record whose step list sums to a
non-positive number of days. -/
def hasBadTstep (deck : List Kw) : Bool :=
  deck.any (fun kw =>
    match kw with
    | .tstep recs => recs.any (fun steplist => decide (steplist.sum ≤ 0))
    | _ => false)

/-- True for the three date-advancing keywords. -/
def isDateKw : Kw → Bool
  | .dates _ => true
  | .start _ => true
  | .tstep _ => true
  | _ => false

/-! ### Invariant used for the date-monotonicity proof -/

/-- Scan invariant for date monotonicity: the dates of the emitted rows
are non-decreasing, all of them are bounded by the current date, and rows
exist only once a date is established. -/
def DateInv (st : ScanState) : Prop :=
  List.Pairwise (· ≤ ·) (st.gruptreerecords.filterMap Row.date) ∧
  (∀ d ∈ st.gruptreerecords.filterMap Row.date, ∀ c, st.date = some c → d ≤ c) ∧
  (st.date = none → st.gruptreerecords = [])

/-! ### Concrete inputs used by the counterexamples, scenarios and witnesses -/

/-- Deck with a GRUPNET block before any edge, then a DATES keyword: at
the DATES boundary the accumulator is empty. -/
def c1deck : List Kw :=
  [Kw.grupnet [[("NAME", Val.str "G"), ("ALQ", Val.num 1)]],
   Kw.dates [⟨1, 1, 2020⟩]]

/-- Deck whose only pending change after the last date keyword is a
GRUPNET block. -/
def c2deck : List Kw :=
  [Kw.start [⟨1, 1, 2020⟩], Kw.gruptree [("C", "P")], Kw.dates [⟨1, 2, 2020⟩],
   Kw.grupnet [[("NAME", Val.str "C"), ("ALQ", Val.num 5)]]]

/-- Deck in which a date-less TSTEP advance precedes a TSTEP summing to
zero days. -/
def c3deck : List Kw := [Kw.tstep [[5]], Kw.tstep [[0]]]

/-- Deck with edges before a date-less TSTEP of ten days, and a further
hierarchy change after it. -/
def c4deck : List Kw :=
  [Kw.gruptree [("C", "P")], Kw.tstep [[10]], Kw.welspecs [("W", "G")]]

/-- Deck with two GRUPNET blocks: the first defines ALQ for GRP1 and GRP2,
the second redefines GRP1 without ALQ; then edges and a date boundary. -/
def c5deck : List Kw :=
  [Kw.grupnet [[("NAME", Val.str "GRP1"), ("ALQ", Val.num 5)],
               [("NAME", Val.str "GRP2"), ("ALQ", Val.num 7)]],
   Kw.grupnet [[("NAME", Val.str "GRP1"), ("TERMINAL_PRESSURE", Val.num 3)]],
   Kw.gruptree [("GRP1", "FIELD"), ("GRP2", "FIELD")],
   Kw.dates [⟨1, 1, 2020⟩]]

/-- Deck whose second absolute date is earlier than the first. -/
def c7deck : List Kw :=
  [Kw.start [⟨1, 1, 2020⟩], Kw.gruptree [("C", "P")], Kw.dates [⟨1, 1, 2010⟩],
   Kw.gruptree [("C2", "P2")]]

/-- One date of edge rows forming a two-node cycle. -/
def c8rows : List Row :=
  [⟨some 1, "A", "B", "GRUPTREE", []⟩, ⟨some 1, "B", "A", "GRUPTREE", []⟩]

/-- One date of acyclic edge rows: F is the root, A its child, B below A. -/
def c8wrows : List Row :=
  [⟨some 1, "A", "F", "GRUPTREE", []⟩, ⟨some 1, "B", "A", "GRUPTREE", []⟩]

/-- One date of edge rows with two distinct roots R1 and R2. -/
def c9rows : List Row :=
  [⟨some 1, "A", "R1", "GRUPTREE", []⟩, ⟨some 1, "B", "R2", "GRUPTREE", []⟩]

/-- Deck with a GRUPNET change pending across an empty-accumulator date
boundary, emitted at the next boundary. -/
def c10deck : List Kw :=
  [Kw.grupnet [[("NAME", Val.str "C"), ("ALQ", Val.num 5)]],
   Kw.dates [⟨1, 1, 2020⟩], Kw.gruptree [("C", "P")], Kw.dates [⟨1, 2, 2020⟩]]

/-- State reached just before the DATES keyword in the C1 witness. -/
def stW : ScanState :=
  { date := some 100
    gruptreerecords := []
    grupnetrecords := []
    currentedges := [(("C", "P"), "GRUPTREE")]
    found_gruptree := true
    found_welspecs := false
    found_grupnet := false }

/-- State produced from stW by the DATES keyword of the C1 witness. -/
def stW' : ScanState :=
  { date := some (toOrdinal 2020 1 1)
    gruptreerecords := [⟨some 100, "C", "P", "GRUPTREE", []⟩]
    grupnetrecords := []
    currentedges := [(("C", "P"), "GRUPTREE")]
    found_gruptree := false
    found_welspecs := false
    found_grupnet := false }

/-- State with the GRUPNET flag set and an empty accumulator, as reached
after the first keyword of c10deck. -/
def stE : ScanState :=
  { date := none
    gruptreerecords := []
    grupnetrecords := [[("NAME", Val.str "C"), ("ALQ", Val.num 5)]]
    currentedges := []
    found_gruptree := false
    found_welspecs := false
    found_grupnet := true }

/-- State produced from stE by a DATES keyword: only the date moves. -/
def stE' : ScanState :=
  { date := some (toOrdinal 2020 1 1)
    gruptreerecords := []
    grupnetrecords := [[("NAME", Val.str "C"), ("ALQ", Val.num 5)]]
    currentedges := []
    found_gruptree := false
    found_welspecs := false
    found_grupnet := true }

/-- Date-less state with one pending edge, as reached just before the
TSTEP keyword of c4deck. -/
def stE4 : ScanState :=
  { date := none
    gruptreerecords := []
    grupnetrecords := []
    currentedges := [(("C", "P"), "GRUPTREE")]
    found_gruptree := true
    found_welspecs := false
    found_grupnet := false }

/-- Final scan state of c2deck. -/
def stC2 : ScanState :=
  { date := some (toOrdinal 2020 2 1)
    gruptreerecords := [⟨some (toOrdinal 2020 1 1), "C", "P", "GRUPTREE", []⟩]
    grupnetrecords := [[("NAME", Val.str "C"), ("ALQ", Val.num 5)]]
    currentedges := [(("C", "P"), "GRUPTREE")]
    found_gruptree := false
    found_welspecs := false
    found_grupnet := true }

/-! ### Helper lemmas on the scan pieces -/

theorem applyDates_eq (recs : List DatesRec) :
    ∀ st : ScanState, ∃ d, applyDates st recs = { st with date := d } := by
  induction recs with
  | nil => exact fun st => ⟨st.date, rfl⟩
  | cons r rest ih =>
      intro st
      obtain ⟨d, hd⟩ := ih { st with date := some (toOrdinal r.year r.month r.day) }
      exact ⟨d, hd⟩

theorem applyTstep_ok (recs : List (List Int)) :
    ∀ st st' : ScanState, applyTstep st recs = Except.ok st' →
      ∃ d, st' = { st with date := d } := by
  induction recs with
  | nil =>
      intro st st' h
      cases h
      exact ⟨st.date, rfl⟩
  | cons steplist rest ih =>
      intro st st' h
      unfold applyTstep at h
      by_cases hdays : steplist.sum ≤ 0
      · simp only [if_pos hdays] at h
        cases h
      · simp only [if_neg hdays] at h
        cases hdate : st.date with
        | none => rw [hdate] at h; cases h
        | some d0 =>
            rw [hdate] at h
            obtain ⟨d, hd⟩ := ih _ _ h
            exact ⟨d, hd⟩

theorem emitSnapshot_pos (st : ScanState)
    (h : (!st.currentedges.isEmpty &&
      (st.found_gruptree || st.found_welspecs || st.found_grupnet)) = true) :
    emitSnapshot st =
      { st with
        date := some (st.date.getD epoch1900)
        gruptreerecords := st.gruptreerecords ++
          st.currentedges.map (mkRow (some (st.date.getD epoch1900)) st.grupnetrecords)
        found_gruptree := false
        found_welspecs := false
        found_grupnet := false } := by
  unfold emitSnapshot
  rw [if_pos h]

theorem emitSnapshot_neg (st : ScanState)
    (h : ¬ (!st.currentedges.isEmpty &&
      (st.found_gruptree || st.found_welspecs || st.found_grupnet)) = true) :
    emitSnapshot st = st := by
  unfold emitSnapshot
  rw [if_neg h]

theorem emitSnapshot_currentedges (st : ScanState) :
    (emitSnapshot st).currentedges = st.currentedges := by
  unfold emitSnapshot
  split <;> rfl

theorem emitSnapshot_grupnetrecords (st : ScanState) :
    (emitSnapshot st).grupnetrecords = st.grupnetrecords := by
  unfold emitSnapshot
  split <;> rfl

/-! ### Counterexamples and concrete evaluations -/

/-- C1 counterexample: at a DATES keyword seen with the GRUPNET changed
flag set but an empty edge accumulator, the scan leaves the changed flag
set, against the claim that the flags are cleared whenever a
date-advancing keyword is met with a flag set. -/
theorem c1_flags_not_cleared_on_empty_accumulator :
    scanDeck c1deck none true =
      Except.ok
        { date := some (toOrdinal 2020 1 1)
          gruptreerecords := []
          grupnetrecords := [[("NAME", Val.str "G"), ("ALQ", Val.num 1)]]
          currentedges := []
          found_gruptree := false
          found_welspecs := false
          found_grupnet := true } := rfl

/-- C2 counterexample: after the last date keyword only a GRUPNET block
occurs, so its changed flag is still set at end of input, yet no final
snapshot is emitted: the output holds only the one earlier row. -/
theorem c2_no_final_snapshot_for_grupnet_only :
    deck2df c2deck none true =
      Except.ok [⟨some (toOrdinal 2020 1 1), "C", "P", "GRUPTREE", []⟩] ∧
    (scanDeck c2deck none true).map ScanState.found_grupnet = Except.ok true :=
  ⟨rfl, rfl⟩

/-- C3 counterexample: the deck contains a TSTEP summing to zero days, but
the run aborts earlier, on the date-less TSTEP advance, so the offending
total is never reported. -/
theorem c3_earlier_dateless_tstep_preempts_report :
    hasBadTstep c3deck = true ∧
    deck2df c3deck none true = Except.error DeckError.noneDateAdvance :=
  ⟨rfl, rfl⟩

/-- C4 counterexample: a TSTEP occurring before any date is established,
with no pending emission, makes deck2df fail instead of using the
1900-01-01 fallback. -/
theorem c4_dateless_tstep_without_pending_emission_fails :
    deck2df [Kw.tstep [[10]]] none true = Except.error DeckError.noneDateAdvance :=
  rfl

/-- C5 counterexample: GRP2 appears only in the first GRUPNET block, yet
after the second block its row still carries the old ALQ value, because
the table is rebuilt from the cumulative record list, not from the last
block alone.  GRP1, redefined in the second block without ALQ, does lose
the old ALQ value. -/
theorem c5_earlier_block_names_retained :
    deck2df c5deck none true =
      Except.ok
        [⟨some epoch1900, "GRP1", "FIELD", "GRUPTREE",
           [("TERMINAL_PRESSURE", Val.num 3)]⟩,
         ⟨some epoch1900, "GRP2", "FIELD", "GRUPTREE",
           [("ALQ", Val.num 7)]⟩] := rfl

/-- C7 counterexample: a deck whose second absolute date lies before the
first produces output rows with strictly decreasing dates. -/
theorem c7_dates_can_decrease :
    deck2df c7deck none true =
      Except.ok
        [⟨some (toOrdinal 2020 1 1), "C", "P", "GRUPTREE", []⟩,
         ⟨some (toOrdinal 2010 1 1), "C", "P", "GRUPTREE", []⟩,
         ⟨some (toOrdinal 2010 1 1), "C2", "P2", "GRUPTREE", []⟩] ∧
    ¬ List.Pairwise (· ≤ ·)
        (([⟨some (toOrdinal 2020 1 1), "C", "P", "GRUPTREE", []⟩,
           ⟨some (toOrdinal 2010 1 1), "C", "P", "GRUPTREE", []⟩,
           ⟨some (toOrdinal 2010 1 1), "C2", "P2", "GRUPTREE", []⟩] :
             List Row).filterMap Row.date) :=
  ⟨rfl, by decide⟩

/-- C8 counterexample: for a two-node cycle the parent set minus child set
is empty, so no tree is produced and the edge (A, B) is lost by the round
trip. -/
theorem c8_cycle_breaks_roundtrip :
    ¬ ((("A", "B") ∈ forestPairs (gruptreedf2dict c8rows)) ↔
        ("A", "B") ∈ edgesOf c8rows) := by decide

/-- C9: with two roots, every returned mapping carries both roots (and the
identical mapping is returned once per root), because the comprehension
variable shadows the loop variable in the source. -/
theorem c9_trees_are_not_single_root :
    (gruptreedf2dict c9rows).map (fun d => d.map Prod.fst) =
      [["R1", "R2"], ["R1", "R2"]] := rfl

/-! ### C1 (amended): snapshot emission at date-advancing keywords -/

/-- C1, amended: when a date-advancing keyword (DATES, START or TSTEP) is
met with a non-empty edge accumulator and one of the changed flags set,
the successful step appends one row per accumulated edge, each joined
with the current attribute table entry of the child and stamped with the
date active before the date change of the keyword is applied (the
1900-01-01 fallback when none was established), and clears all three
changed flags. -/
theorem snapshot_at_date_keywords (w : Bool) (st st' : ScanState) (kw : Kw)
    (hkw : isDateKw kw = true)
    (hne : st.currentedges ≠ [])
    (hfl : (st.found_gruptree || st.found_welspecs || st.found_grupnet) = true)
    (hok : stepKw w st kw = Except.ok st') :
    st'.gruptreerecords = st.gruptreerecords ++
      st.currentedges.map (mkRow (some (st.date.getD epoch1900)) st.grupnetrecords) ∧
    st'.found_gruptree = false ∧ st'.found_welspecs = false ∧
    st'.found_grupnet = false := by
  have hcond : (!st.currentedges.isEmpty &&
      (st.found_gruptree || st.found_welspecs || st.found_grupnet)) = true := by
    have : st.currentedges.isEmpty = false := by
      cases hce : st.currentedges with
      | nil => exact absurd hce hne
      | cons a l => rfl
    simp [this, hfl]
  have hemit := emitSnapshot_pos st hcond
  cases kw with
  | dates recs =>
      obtain ⟨d, hd⟩ := applyDates_eq recs (emitSnapshot st)
      have hst' : st' = applyDates (emitSnapshot st) recs := by
        simpa [stepKw] using hok.symm
      rw [hst', hd, hemit]
      exact ⟨rfl, rfl, rfl, rfl⟩
  | start recs =>
      obtain ⟨d, hd⟩ := applyDates_eq recs (emitSnapshot st)
      have hst' : st' = applyDates (emitSnapshot st) recs := by
        simpa [stepKw] using hok.symm
      rw [hst', hd, hemit]
      exact ⟨rfl, rfl, rfl, rfl⟩
  | tstep recs =>
      have hok' : applyTstep (emitSnapshot st) recs = Except.ok st' := hok
      obtain ⟨d, hd⟩ := applyTstep_ok recs (emitSnapshot st) st' hok'
      rw [hd, hemit]
      exact ⟨rfl, rfl, rfl, rfl⟩
  | gruptree recs => simp [isDateKw] at hkw
  | welspecs recs => simp [isDateKw] at hkw
  | grupnet recs => simp [isDateKw] at hkw
  | other => simp [isDateKw] at hkw

/-- Witness for the amended C1 theorem at a concrete state and keyword. -/
theorem snapshot_at_date_keywords_witness :
    stW'.gruptreerecords = stW.gruptreerecords ++
      stW.currentedges.map (mkRow (some (stW.date.getD epoch1900)) stW.grupnetrecords) ∧
    stW'.found_gruptree = false ∧ stW'.found_welspecs = false ∧
    stW'.found_grupnet = false :=
  snapshot_at_date_keywords true stW stW' (Kw.dates [⟨1, 1, 2020⟩])
    rfl (by decide) (by decide) rfl

/-! ### C10: date keywords met with an empty accumulator -/

/-- C10: at a date-advancing keyword with an empty edge accumulator no
rows are emitted and the changed flags are left untouched; pending
changes are then emitted at the next boundary reached with a non-empty
accumulator, stamped with the pre-advance date of that later boundary
(concrete run: the GRUPNET block before any edge is joined into the rows
emitted at the second DATES, stamped with the date the first DATES set). -/
theorem no_snapshot_on_empty_accumulator :
    (∀ (w : Bool) (st st' : ScanState) (kw : Kw), isDateKw kw = true →
      st.currentedges = [] → stepKw w st kw = Except.ok st' →
      st'.gruptreerecords = st.gruptreerecords ∧
      st'.found_gruptree = st.found_gruptree ∧
      st'.found_welspecs = st.found_welspecs ∧
      st'.found_grupnet = st.found_grupnet) ∧
    deck2df c10deck none true =
      Except.ok [⟨some (toOrdinal 2020 1 1), "C", "P", "GRUPTREE",
        [("ALQ", Val.num 5)]⟩] := by
  constructor
  · intro w st st' kw hkw hce hok
    have hemit : emitSnapshot st = st := by
      apply emitSnapshot_neg
      simp [hce]
    cases kw with
    | dates recs =>
        obtain ⟨d, hd⟩ := applyDates_eq recs (emitSnapshot st)
        have hst' : st' = applyDates (emitSnapshot st) recs := by
          simpa [stepKw] using hok.symm
        rw [hst', hd, hemit]
        exact ⟨rfl, rfl, rfl, rfl⟩
    | start recs =>
        obtain ⟨d, hd⟩ := applyDates_eq recs (emitSnapshot st)
        have hst' : st' = applyDates (emitSnapshot st) recs := by
          simpa [stepKw] using hok.symm
        rw [hst', hd, hemit]
        exact ⟨rfl, rfl, rfl, rfl⟩
    | tstep recs =>
        have hok' : applyTstep (emitSnapshot st) recs = Except.ok st' := hok
        obtain ⟨d, hd⟩ := applyTstep_ok recs (emitSnapshot st) st' hok'
        rw [hd, hemit]
        exact ⟨rfl, rfl, rfl, rfl⟩
    | gruptree recs => simp [isDateKw] at hkw
    | welspecs recs => simp [isDateKw] at hkw
    | grupnet recs => simp [isDateKw] at hkw
    | other => simp [isDateKw] at hkw
  · rfl

/-- Witness for the C10 theorem: the general part applied at a concrete
state with the GRUPNET flag set and an empty accumulator, stepped over a
DATES keyword. -/
theorem no_snapshot_on_empty_accumulator_witness :
    stE'.gruptreerecords = stE.gruptreerecords ∧
    stE'.found_gruptree = stE.found_gruptree ∧
    stE'.found_welspecs = stE.found_welspecs ∧
    stE'.found_grupnet = stE.found_grupnet :=
  (no_snapshot_on_empty_accumulator).1 true stE stE'
    (Kw.dates [⟨1, 1, 2020⟩]) rfl rfl rfl

/-! ### C2 (amended): the final dump at end of input -/

/-- C2, amended: at end of input a final snapshot of every accumulated
edge, stamped with the last known date and with no further date advance,
is emitted exactly when the hierarchy flags (GRUPTREE or WELSPECS) are
still set; a pending GRUPNET-only change does not trigger the final
dump. -/
theorem final_snapshot_on_hierarchy_flags (deck : List Kw) (sd : Option Nat)
    (w : Bool) (st : ScanState) (hok : scanDeck deck sd w = Except.ok st) :
    ((st.found_gruptree || st.found_welspecs) = true →
      deck2df deck sd w = Except.ok (st.gruptreerecords ++
        st.currentedges.map (mkRow st.date st.grupnetrecords))) ∧
    ((st.found_gruptree || st.found_welspecs) = false →
      deck2df deck sd w = Except.ok st.gruptreerecords) := by
  constructor
  · intro hfl
    simp [deck2df, hok, Except.map, finishScan, hfl]
  · intro hfl
    simp [deck2df, hok, Except.map, finishScan, hfl]

/-- Witness for the amended C2 theorem: on the c2deck run the hierarchy
flags are clear at end of input, so the output is exactly the rows
emitted earlier, although the GRUPNET flag is still set. -/
theorem final_snapshot_on_hierarchy_flags_witness :
    deck2df c2deck none true = Except.ok stC2.gruptreerecords :=
  (final_snapshot_on_hierarchy_flags c2deck none true stC2 rfl).2 rfl

/-! ### C6: semantics of the edge accumulator -/

theorem dictInsert_mem_self (m : List ((String × String) × String))
    (k : String × String) (v : String) : (k, v) ∈ dictInsert m k v := by
  unfold dictInsert
  by_cases hc : (m.any fun e => decide (e.1 = k)) = true
  · rw [if_pos hc]
    rw [List.any_eq_true] at hc
    obtain ⟨e, he, hek⟩ := hc
    refine List.mem_map.mpr ⟨e, he, ?_⟩
    rw [if_pos (of_decide_eq_true hek)]
  · rw [if_neg hc]
    exact List.mem_append_right _ (List.mem_singleton.mpr rfl)

theorem dictInsert_mem_other (m : List ((String × String) × String))
    (k : String × String) (v : String) (e : (String × String) × String)
    (he : e ∈ m) (hne : e.1 ≠ k) : e ∈ dictInsert m k v := by
  unfold dictInsert
  by_cases hc : (m.any fun e => decide (e.1 = k)) = true
  · rw [if_pos hc]
    refine List.mem_map.mpr ⟨e, he, ?_⟩
    rw [if_neg hne]
  · rw [if_neg hc]
    exact List.mem_append_left _ he

theorem dictInsert_key_mem (m : List ((String × String) × String))
    (k : String × String) (v : String) (e : (String × String) × String)
    (he : e ∈ m) : ∃ v', (e.1, v') ∈ dictInsert m k v := by
  by_cases hek : e.1 = k
  · exact ⟨v, by rw [hek]; exact dictInsert_mem_self m k v⟩
  · exact ⟨e.2, dictInsert_mem_other m k v e he hek⟩

theorem foldl_dictInsert_key_mem (tag : String) (recs : List (String × String)) :
    ∀ m : List ((String × String) × String), ∀ e ∈ m,
      ∃ v, (e.1, v) ∈ recs.foldl (fun m e => dictInsert m e tag) m := by
  induction recs with
  | nil => exact fun m e he => ⟨e.2, he⟩
  | cons r rest ih =>
      intro m e he
      obtain ⟨v', hv'⟩ := dictInsert_key_mem m r tag e he
      obtain ⟨v, hv⟩ := ih (dictInsert m r tag) (e.1, v') hv'
      exact ⟨v, hv⟩

/-- C6: the edge accumulator is keyed on the whole (child, parent) pair:
recording an edge puts the pair in the mapping, leaves every entry with a
different key untouched (in particular the stale entry of a child
reassigned to a new parent), no scan step ever drops a key, and an
emitted snapshot consists of one row per accumulated edge (the complete
current edge set, not a diff). -/
theorem edge_accumulator_semantics :
    (∀ (m : List ((String × String) × String)) (k : String × String) (v : String),
      (k, v) ∈ dictInsert m k v) ∧
    (∀ (m : List ((String × String) × String)) (k : String × String) (v : String)
      (e : (String × String) × String), e ∈ m → e.1 ≠ k → e ∈ dictInsert m k v) ∧
    (∀ (m : List ((String × String) × String)) (c pOld pNew vOld vNew : String),
      pOld ≠ pNew → ((c, pOld), vOld) ∈ m →
      ((c, pOld), vOld) ∈ dictInsert m (c, pNew) vNew) ∧
    (∀ (w : Bool) (st st' : ScanState) (kw : Kw), stepKw w st kw = Except.ok st' →
      ∀ e ∈ st.currentedges, ∃ v, (e.1, v) ∈ st'.currentedges) ∧
    (∀ st : ScanState,
      (!st.currentedges.isEmpty &&
        (st.found_gruptree || st.found_welspecs || st.found_grupnet)) = true →
      (emitSnapshot st).gruptreerecords = st.gruptreerecords ++
        st.currentedges.map (mkRow (some (st.date.getD epoch1900)) st.grupnetrecords)) := by
  refine ⟨dictInsert_mem_self, dictInsert_mem_other, ?_, ?_, ?_⟩
  · intro m c pOld pNew vOld vNew hne hmem
    refine dictInsert_mem_other m (c, pNew) vNew ((c, pOld), vOld) hmem ?_
    simp [hne]
  · intro w st st' kw hok e he
    cases kw with
    | dates recs =>
        have hst' : st' = applyDates (emitSnapshot st) recs := by
          simpa [stepKw] using hok.symm
        obtain ⟨d, hd⟩ := applyDates_eq recs (emitSnapshot st)
        rw [hst', hd]
        exact ⟨e.2, by simpa [emitSnapshot_currentedges] using he⟩
    | start recs =>
        have hst' : st' = applyDates (emitSnapshot st) recs := by
          simpa [stepKw] using hok.symm
        obtain ⟨d, hd⟩ := applyDates_eq recs (emitSnapshot st)
        rw [hst', hd]
        exact ⟨e.2, by simpa [emitSnapshot_currentedges] using he⟩
    | tstep recs =>
        have hok' : applyTstep (emitSnapshot st) recs = Except.ok st' := hok
        obtain ⟨d, hd⟩ := applyTstep_ok recs (emitSnapshot st) st' hok'
        rw [hd]
        exact ⟨e.2, by simpa [emitSnapshot_currentedges] using he⟩
    | gruptree recs =>
        have hst' : st' = { st with
            found_gruptree := true
            currentedges := recs.foldl (fun m e => dictInsert m e "GRUPTREE")
              st.currentedges } := by
          simpa [stepKw] using hok.symm
        rw [hst']
        exact foldl_dictInsert_key_mem "GRUPTREE" recs st.currentedges e he
    | welspecs recs =>
        by_cases hw : w = true
        · have hst' : st' = { st with
              found_welspecs := true
              currentedges := recs.foldl (fun m e => dictInsert m e "WELSPECS")
                st.currentedges } := by
            simpa [stepKw, hw] using hok.symm
          rw [hst']
          exact foldl_dictInsert_key_mem "WELSPECS" recs st.currentedges e he
        · have hst' : st' = st := by
            simpa [stepKw, hw] using hok.symm
          rw [hst']
          exact ⟨e.2, he⟩
    | grupnet recs =>
        have hst' : st' = { st with
            found_grupnet := true
            grupnetrecords := st.grupnetrecords ++ recs.map grupnetData } := by
          simpa [stepKw] using hok.symm
        rw [hst']
        exact ⟨e.2, he⟩
    | other =>
        have hst' : st' = st := by
          simpa [stepKw] using hok.symm
        rw [hst']
        exact ⟨e.2, he⟩
  · intro st h
    rw [emitSnapshot_pos st h]

/-- Witness for the C6 theorem: all five parts applied at concrete
mappings, states and keywords. -/
theorem edge_accumulator_semantics_witness :
    ((("C", "Q"), "WELSPECS") ∈
      dictInsert [(("C", "P"), "GRUPTREE")] ("C", "Q") "WELSPECS") ∧
    ((("C", "P"), "GRUPTREE") ∈
      dictInsert [(("C", "P"), "GRUPTREE")] ("C", "Q") "WELSPECS") ∧
    ((("C", "P"), "GRUPTREE") ∈
      dictInsert [(("C", "P"), "GRUPTREE")] ("C", "Q") "WELSPECS") ∧
    (∃ v, ((("C", "P"), "GRUPTREE").1, v) ∈ stW'.currentedges) ∧
    (emitSnapshot stW).gruptreerecords = stW.gruptreerecords ++
      stW.currentedges.map (mkRow (some (stW.date.getD epoch1900)) stW.grupnetrecords) :=
  ⟨edge_accumulator_semantics.1 [(("C", "P"), "GRUPTREE")] ("C", "Q") "WELSPECS",
   edge_accumulator_semantics.2.1 [(("C", "P"), "GRUPTREE")] ("C", "Q") "WELSPECS"
     (("C", "P"), "GRUPTREE") (by decide) (by decide),
   edge_accumulator_semantics.2.2.1 [(("C", "P"), "GRUPTREE")] "C" "P" "Q"
     "GRUPTREE" "WELSPECS" (by decide) (by decide),
   edge_accumulator_semantics.2.2.2.1 true stW stW' (Kw.dates [⟨1, 1, 2020⟩]) rfl
     (("C", "P"), "GRUPTREE") (by decide),
   edge_accumulator_semantics.2.2.2.2 stW (by decide)⟩

/-! ### C4 (amended): the 1900-01-01 fallback -/

/-- C4, amended: when a time advance is reached before any date is
established, the 1900-01-01 fallback applies only if the keyword triggers
an emission (non-empty accumulator and a changed flag): the snapshot is
then stamped 1900-01-01 and the clock advances from it, so with a
GRUPTREE before a date-less TSTEP of ten days the rows emitted at later
boundaries or at end of input are dated 1900-01-11.  A date-less TSTEP
with no pending emission instead fails the run (see the
counterexample). -/
theorem tstep_fallback_on_pending_emission :
    (∀ st : ScanState, st.date = none → st.currentedges ≠ [] →
      (st.found_gruptree || st.found_welspecs || st.found_grupnet) = true →
      (emitSnapshot st).date = some epoch1900 ∧
      (emitSnapshot st).gruptreerecords = st.gruptreerecords ++
        st.currentedges.map (mkRow (some epoch1900) st.grupnetrecords)) ∧
    deck2df c4deck none true =
      Except.ok
        [⟨some (toOrdinal 1900 1 1), "C", "P", "GRUPTREE", []⟩,
         ⟨some (toOrdinal 1900 1 11), "C", "P", "GRUPTREE", []⟩,
         ⟨some (toOrdinal 1900 1 11), "W", "G", "WELSPECS", []⟩] := by
  constructor
  · intro st hdate hne hfl
    have hcond : (!st.currentedges.isEmpty &&
        (st.found_gruptree || st.found_welspecs || st.found_grupnet)) = true := by
      have : st.currentedges.isEmpty = false := by
        cases hce : st.currentedges with
        | nil => exact absurd hce hne
        | cons a l => rfl
      simp [this, hfl]
    rw [emitSnapshot_pos st hcond, hdate]
    exact ⟨rfl, rfl⟩
  · rfl

/-- Witness for the amended C4 theorem: the fallback part applied at a
concrete date-less state, plus the concrete run. -/
theorem tstep_fallback_on_pending_emission_witness :
    ((emitSnapshot stE4).date = some epoch1900 ∧
      (emitSnapshot stE4).gruptreerecords = stE4.gruptreerecords ++
        stE4.currentedges.map (mkRow (some epoch1900) stE4.grupnetrecords)) ∧
    deck2df c4deck none true =
      Except.ok
        [⟨some (toOrdinal 1900 1 1), "C", "P", "GRUPTREE", []⟩,
         ⟨some (toOrdinal 1900 1 11), "C", "P", "GRUPTREE", []⟩,
         ⟨some (toOrdinal 1900 1 11), "W", "G", "WELSPECS", []⟩] :=
  ⟨tstep_fallback_on_pending_emission.1 stE4 rfl (by decide) rfl,
   tstep_fallback_on_pending_emission.2⟩

/-! ### C5 (amended): the GRUPNET attribute table -/

theorem grupnetLookup_append (rs1 rs2 : List (List (String × Val)))
    (name : String) :
    grupnetLookup (rs1 ++ rs2) name =
      (grupnetLookup rs2 name).or (grupnetLookup rs1 name) := by
  unfold grupnetLookup
  rw [List.reverse_append, List.find?_append]

/-- C5, amended: each GRUPNET block appends its records to the cumulative
record list and the table is rebuilt from that cumulative list with the
last record per NAME winning.  Hence a name redefined in a later block
without some field does not carry the old value of that field (the lookup
returns only the fields of the last record), but names and fields from
earlier blocks are retained as long as the name is not redefined. -/
theorem grupnet_cumulative_rebuild :
    (∀ (w : Bool) (st st' : ScanState) (recs : List (List (String × Val))),
      stepKw w st (Kw.grupnet recs) = Except.ok st' →
      st'.grupnetrecords = st.grupnetrecords ++ recs.map grupnetData) ∧
    (∀ (rs1 rs2 : List (List (String × Val))) (name : String),
      grupnetLookup (rs1 ++ rs2) name =
        (grupnetLookup rs2 name).or (grupnetLookup rs1 name)) ∧
    ((scanDeck c5deck none true).map
      (fun st => grupnetLookup st.grupnetrecords "GRP1") =
        Except.ok (some [("NAME", Val.str "GRP1"),
          ("TERMINAL_PRESSURE", Val.num 3)]) ∧
     (scanDeck c5deck none true).map
      (fun st => grupnetLookup st.grupnetrecords "GRP2") =
        Except.ok (some [("NAME", Val.str "GRP2"), ("ALQ", Val.num 7)])) := by
  refine ⟨?_, grupnetLookup_append, rfl, rfl⟩
  intro w st st' recs hok
  have hst' : st' = { st with
      found_grupnet := true
      grupnetrecords := st.grupnetrecords ++ recs.map grupnetData } := by
    simpa [stepKw] using hok.symm
  rw [hst']

/-- Witness for the amended C5 theorem: the append part applied at a
concrete state and block, and the lookup split at concrete record
lists. -/
theorem grupnet_cumulative_rebuild_witness :
    stE.grupnetrecords = (initState none).grupnetrecords ++
      [[("NAME", Val.str "C"), ("ALQ", Val.num 5)]].map grupnetData ∧
    grupnetLookup ([[("NAME", Val.str "A"), ("ALQ", Val.num 1)]] ++
        [[("NAME", Val.str "B"), ("ALQ", Val.num 2)]]) "A" =
      (grupnetLookup [[("NAME", Val.str "B"), ("ALQ", Val.num 2)]] "A").or
        (grupnetLookup [[("NAME", Val.str "A"), ("ALQ", Val.num 1)]] "A") :=
  ⟨grupnet_cumulative_rebuild.1 true (initState none) stE
      [[("NAME", Val.str "C"), ("ALQ", Val.num 5)]] rfl,
   grupnet_cumulative_rebuild.2.1 [[("NAME", Val.str "A"), ("ALQ", Val.num 1)]]
      [[("NAME", Val.str "B"), ("ALQ", Val.num 2)]] "A"⟩

/-! ### C3 (amended): a non-positive TSTEP is fatal -/

theorem scanKws_append (w : Bool) (xs ys : List Kw) :
    ∀ st, scanKws w st (xs ++ ys) =
      match scanKws w st xs with
      | Except.error e => Except.error e
      | Except.ok st1 => scanKws w st1 ys := by
  induction xs with
  | nil => intro st; rfl
  | cons kw rest ih =>
      intro st
      cases h : stepKw w st kw with
      | error e => simp [scanKws, h]
      | ok st' =>
          simp only [List.cons_append, scanKws, h]
          exact ih st'

theorem applyTstep_bad :
    ∀ recs : List (List Int), recs.any (fun s => decide (s.sum ≤ 0)) = true →
      ∀ st, ∃ e, applyTstep st recs = Except.error e := by
  intro recs
  induction recs with
  | nil => intro hbad; simp at hbad
  | cons steplist rest ih =>
      intro hbad st
      by_cases hd : steplist.sum ≤ 0
      · exact ⟨DeckError.invalidTstep steplist.sum, by simp [applyTstep, hd]⟩
      · have hrest : rest.any (fun s => decide (s.sum ≤ 0)) = true := by
          simpa [hd] using hbad
        cases hdate : st.date with
        | none =>
            exact ⟨DeckError.noneDateAdvance, by simp [applyTstep, hd, hdate]⟩
        | some d0 =>
            obtain ⟨e, he⟩ :=
              ih hrest { st with date := some (d0 + steplist.sum.toNat) }
            exact ⟨e, by simp [applyTstep, hd, hdate, he]⟩

theorem stepKw_tstep_bad (w : Bool) (st : ScanState) (recs : List (List Int))
    (hbad : recs.any (fun s => decide (s.sum ≤ 0)) = true) :
    ∃ e, stepKw w st (Kw.tstep recs) = Except.error e := by
  obtain ⟨e, he⟩ := applyTstep_bad recs hbad (emitSnapshot st)
  exact ⟨e, by simp [stepKw, he]⟩

/-- C3, amended: a deck holding a TSTEP record whose step list sums to a
non-positive number of days never yields rows (the run always aborts with
some fatal error, so no partial result reaches the caller); and whenever
the scan actually reaches such a record, the error reports the offending
total.  The preceding counterexample shows the reported error can instead
be the date-less-advance failure when an earlier date-less TSTEP aborts
the run first. -/
theorem bad_tstep_aborts :
    (∀ (deck : List Kw) (sd : Option Nat) (w : Bool), hasBadTstep deck = true →
      ∀ rows, deck2df deck sd w ≠ Except.ok rows) ∧
    (∀ (pre post : List Kw) (steps : List Int) (rest : List (List Int))
      (sd : Option Nat) (w : Bool) (st : ScanState),
      scanDeck pre sd w = Except.ok st → steps.sum ≤ 0 →
      deck2df (pre ++ Kw.tstep (steps :: rest) :: post) sd w =
        Except.error (DeckError.invalidTstep steps.sum)) := by
  constructor
  · intro deck sd w hbad rows hok
    rw [hasBadTstep, List.any_eq_true] at hbad
    obtain ⟨kw, hkw, hkwbad⟩ := hbad
    obtain ⟨pre, post, rfl⟩ := List.append_of_mem hkw
    unfold deck2df scanDeck at hok
    rw [scanKws_append] at hok
    cases hpre : scanKws w (initState sd) pre with
    | error e => rw [hpre] at hok; simp [Except.map] at hok
    | ok st1 =>
        rw [hpre] at hok
        dsimp only at hok
        cases kw with
        | tstep recs =>
            obtain ⟨e, he⟩ := stepKw_tstep_bad w st1 recs hkwbad
            rw [show scanKws w st1 (Kw.tstep recs :: post) = Except.error e by
              simp [scanKws, he]] at hok
            simp [Except.map] at hok
        | dates recs => simp at hkwbad
        | start recs => simp at hkwbad
        | gruptree recs => simp at hkwbad
        | welspecs recs => simp at hkwbad
        | grupnet recs => simp at hkwbad
        | other => simp at hkwbad
  · intro pre post steps rest sd w st hpre hsum
    unfold deck2df scanDeck
    rw [scanKws_append]
    unfold scanDeck at hpre
    rw [hpre]
    have hstep : stepKw w st (Kw.tstep (steps :: rest)) =
        Except.error (DeckError.invalidTstep steps.sum) := by
      simp [stepKw, applyTstep, hsum]
    simp [scanKws, hstep, Except.map]

/-- Witness for the amended C3 theorem: a deck consisting of one zero-day
TSTEP yields no rows, and with one edge defined beforehand the reported
error carries the offending total of zero days. -/
theorem bad_tstep_aborts_witness :
    deck2df [Kw.tstep [[0]]] none true ≠ Except.ok [] ∧
    deck2df ([Kw.gruptree [("C", "P")]] ++ Kw.tstep ([0] :: []) :: []) none true =
      Except.error (DeckError.invalidTstep ([(0 : Int)].sum)) :=
  ⟨bad_tstep_aborts.1 [Kw.tstep [[0]]] none true rfl [],
   bad_tstep_aborts.2 [Kw.gruptree [("C", "P")]] [] [0] [] none true stE4 rfl
     (by decide)⟩

/-! ### C7 (amended): date monotonicity of the output -/

theorem applyDatesG_fst (recs : List DatesRec) :
    ∀ (st : ScanState) (g : Bool), (applyDatesG st g recs).1 = applyDates st recs := by
  induction recs with
  | nil => intro st g; rfl
  | cons r rest ih => intro st g; exact ih _ _

theorem applyDatesG_ghost_true (recs : List DatesRec) :
    ∀ (st : ScanState) (g : Bool) (p : ScanState × Bool),
      applyDatesG st g recs = p → p.2 = true → g = true := by
  induction recs with
  | nil =>
      intro st g p h hp
      rw [← h] at hp
      exact hp
  | cons r rest ih =>
      intro st g p h hp
      have := ih _ _ p h hp
      exact Bool.and_eq_true_iff.mp this |>.1

theorem applyDatesG_ghost_false (recs : List DatesRec) :
    ∀ (st : ScanState), (applyDatesG st false recs).2 = false := by
  induction recs with
  | nil => intro st; rfl
  | cons r rest ih => intro st; exact ih _

theorem stepKwG_of_stepKw (w : Bool) (st : ScanState) (g : Bool) (kw : Kw)
    (st1 : ScanState) (hstep : stepKw w st kw = Except.ok st1) :
    ∃ g1, stepKwG w (st, g) kw = Except.ok (st1, g1) := by
  cases kw with
  | dates recs =>
      have h1 : st1 = applyDates (emitSnapshot st) recs := by
        simpa [stepKw] using hstep.symm
      refine ⟨(applyDatesG (emitSnapshot st) g recs).2, ?_⟩
      show Except.ok (applyDatesG (emitSnapshot st) g recs) = _
      rw [show applyDatesG (emitSnapshot st) g recs =
        ((applyDatesG (emitSnapshot st) g recs).1,
         (applyDatesG (emitSnapshot st) g recs).2) from rfl]
      rw [applyDatesG_fst, ← h1]
  | start recs =>
      have h1 : st1 = applyDates (emitSnapshot st) recs := by
        simpa [stepKw] using hstep.symm
      refine ⟨(applyDatesG (emitSnapshot st) g recs).2, ?_⟩
      show Except.ok (applyDatesG (emitSnapshot st) g recs) = _
      rw [show applyDatesG (emitSnapshot st) g recs =
        ((applyDatesG (emitSnapshot st) g recs).1,
         (applyDatesG (emitSnapshot st) g recs).2) from rfl]
      rw [applyDatesG_fst, ← h1]
  | tstep recs =>
      exact ⟨g, by simp [stepKwG, hstep, Except.map]⟩
  | gruptree recs => exact ⟨g, by simp [stepKwG, hstep, Except.map]⟩
  | welspecs recs => exact ⟨g, by simp [stepKwG, hstep, Except.map]⟩
  | grupnet recs => exact ⟨g, by simp [stepKwG, hstep, Except.map]⟩
  | other => exact ⟨g, by simp [stepKwG, hstep, Except.map]⟩

theorem stepKwG_ghost_false (w : Bool) (st : ScanState) (kw : Kw)
    (p : ScanState × Bool) (h : stepKwG w (st, false) kw = Except.ok p) :
    p.2 = false := by
  cases kw with
  | dates recs =>
      have hp : p = applyDatesG (emitSnapshot st) false recs := by
        simpa [stepKwG, Except.map] using h.symm
      rw [hp]
      exact applyDatesG_ghost_false recs _
  | start recs =>
      have hp : p = applyDatesG (emitSnapshot st) false recs := by
        simpa [stepKwG, Except.map] using h.symm
      rw [hp]
      exact applyDatesG_ghost_false recs _
  | tstep recs =>
      cases ht : applyTstep (emitSnapshot st) recs with
      | error e => rw [show stepKwG w (st, false) (Kw.tstep recs) =
            Except.error e by simp [stepKwG, stepKw, ht, Except.map]] at h; cases h
      | ok s =>
          rw [show stepKwG w (st, false) (Kw.tstep recs) =
            Except.ok (s, false) by simp [stepKwG, stepKw, ht, Except.map]] at h
          cases h
          rfl
  | gruptree recs =>
      have : p = ({ st with
          found_gruptree := true
          currentedges := recs.foldl (fun m e => dictInsert m e "GRUPTREE")
            st.currentedges }, false) := by
        simpa [stepKwG, stepKw, Except.map] using h.symm
      rw [this]
  | welspecs recs =>
      by_cases hw : w = true
      · have : p = ({ st with
            found_welspecs := true
            currentedges := recs.foldl (fun m e => dictInsert m e "WELSPECS")
              st.currentedges }, false) := by
          simpa [stepKwG, stepKw, hw, Except.map] using h.symm
        rw [this]
      · have : p = (st, false) := by
          simpa [stepKwG, stepKw, hw, Except.map] using h.symm
        rw [this]
  | grupnet recs =>
      have : p = ({ st with
          found_grupnet := true
          grupnetrecords := st.grupnetrecords ++ recs.map grupnetData }, false) := by
        simpa [stepKwG, stepKw, Except.map] using h.symm
      rw [this]
  | other =>
      have : p = (st, false) := by
        simpa [stepKwG, stepKw, Except.map] using h.symm
      rw [this]

theorem scanKwsG_ghost_false (w : Bool) (deck : List Kw) :
    ∀ (st : ScanState) (q : ScanState × Bool),
      scanKwsG w (st, false) deck = Except.ok q → q.2 = false := by
  induction deck with
  | nil =>
      intro st q h
      cases h
      rfl
  | cons kw rest ih =>
      intro st q h
      cases hstep : stepKwG w (st, false) kw with
      | error e => rw [show scanKwsG w (st, false) (kw :: rest) =
            Except.error e by simp [scanKwsG, hstep]] at h; cases h
      | ok p =>
          have hp2 : p.2 = false := stepKwG_ghost_false w st kw p hstep
          rw [show scanKwsG w (st, false) (kw :: rest) =
            scanKwsG w p rest by simp [scanKwsG, hstep]] at h
          rw [show p = (p.1, false) by rw [← hp2]] at h
          exact ih p.1 q h

theorem scanKws_to_G (w : Bool) (deck : List Kw) :
    ∀ (st : ScanState) (g : Bool) (st' : ScanState),
      scanKws w st deck = Except.ok st' →
      ∃ g', scanKwsG w (st, g) deck = Except.ok (st', g') := by
  induction deck with
  | nil =>
      intro st g st' h
      cases h
      exact ⟨g, rfl⟩
  | cons kw rest ih =>
      intro st g st' h
      cases hstep : stepKw w st kw with
      | error e =>
          rw [show scanKws w st (kw :: rest) = Except.error e by
            simp [scanKws, hstep]] at h
          cases h
      | ok st1 =>
          rw [show scanKws w st (kw :: rest) = scanKws w st1 rest by
            simp [scanKws, hstep]] at h
          obtain ⟨g1, hg1⟩ := stepKwG_of_stepKw w st g kw st1 hstep
          obtain ⟨g', hG⟩ := ih st1 g1 st' h
          exact ⟨g', by simp [scanKwsG, hg1, hG]⟩

theorem filterMap_date_map_mkRow_some (rs : List (List (String × Val)))
    (d0 : Nat) (l : List ((String × String) × String)) :
    (l.map (mkRow (some d0) rs)).filterMap Row.date = l.map (fun _ => d0) := by
  induction l with
  | nil => rfl
  | cons e rest ih => simp [mkRow, List.filterMap_cons, ih]

theorem filterMap_date_map_mkRow_none (rs : List (List (String × Val)))
    (l : List ((String × String) × String)) :
    (l.map (mkRow none rs)).filterMap Row.date = [] := by
  induction l with
  | nil => rfl
  | cons e rest ih => simp [mkRow, List.filterMap_cons, ih]

theorem pairwise_le_map_const {α : Type} (l : List α) (d0 : Nat) :
    List.Pairwise (· ≤ ·) (l.map (fun _ => d0)) := by
  induction l with
  | nil => exact List.Pairwise.nil
  | cons e rest ih =>
      refine List.Pairwise.cons ?_ ih
      intro b hb
      obtain ⟨a, _, rfl⟩ := List.mem_map.mp hb
      exact le_refl d0

theorem pairwise_snapshot_append (st : ScanState) (hinv : DateInv st) (c : Nat)
    (hc : ∀ cd, st.date = some cd → cd ≤ c)
    (l : List ((String × String) × String)) (rs : List (List (String × Val))) :
    List.Pairwise (· ≤ ·)
      ((st.gruptreerecords ++ l.map (mkRow (some c) rs)).filterMap Row.date) ∧
    ∀ d ∈ (st.gruptreerecords ++ l.map (mkRow (some c) rs)).filterMap Row.date,
      d ≤ c := by
  obtain ⟨hpw, hbd, hnone⟩ := hinv
  rw [List.filterMap_append, filterMap_date_map_mkRow_some]
  cases hdate : st.date with
  | none =>
      rw [hnone hdate]
      simp only [List.filterMap_nil, List.nil_append]
      constructor
      · exact pairwise_le_map_const l c
      · intro d hd
        obtain ⟨a, _, rfl⟩ := List.mem_map.mp hd
        exact le_refl c
  | some cd =>
      have hcd : cd ≤ c := hc cd hdate
      constructor
      · rw [List.pairwise_append]
        refine ⟨hpw, pairwise_le_map_const l c, ?_⟩
        intro a ha b hb
        obtain ⟨x, _, rfl⟩ := List.mem_map.mp hb
        exact le_trans (hbd a ha cd hdate) hcd
      · intro d hd
        rcases List.mem_append.mp hd with h1 | h2
        · exact le_trans (hbd d h1 cd hdate) hcd
        · obtain ⟨x, _, rfl⟩ := List.mem_map.mp h2
          exact le_refl c

theorem emitSnapshot_DateInv (st : ScanState) (h : DateInv st) :
    DateInv (emitSnapshot st) := by
  by_cases hc : (!st.currentedges.isEmpty &&
      (st.found_gruptree || st.found_welspecs || st.found_grupnet)) = true
  · rw [emitSnapshot_pos st hc]
    have hcbound : ∀ cd, st.date = some cd → cd ≤ st.date.getD epoch1900 := by
      intro cd hcd
      rw [hcd]
      exact le_refl cd
    obtain ⟨hpw, hbdall⟩ := pairwise_snapshot_append st h (st.date.getD epoch1900)
      hcbound st.currentedges st.grupnetrecords
    refine ⟨hpw, ?_, ?_⟩
    · intro d hd c hcg
      injection hcg with hcg'
      rw [← hcg']
      exact hbdall d hd
    · intro hn
      cases hn
  · rw [emitSnapshot_neg st hc]
    exact h

theorem applyDatesG_DateInv (recs : List DatesRec) :
    ∀ (st : ScanState) (g : Bool) (st' : ScanState),
      applyDatesG st g recs = (st', true) → DateInv st → DateInv st' := by
  induction recs with
  | nil =>
      intro st g st' h hinv
      have hst : st = st' := congrArg Prod.fst h
      rw [← hst]
      exact hinv
  | cons r rest ih =>
      intro st g st' h hinv
      simp only [applyDatesG] at h
      have hgok := applyDatesG_ghost_true rest _ _ _ h rfl
      have hok : (match st.date with
          | none => true
          | some c => decide (c ≤ toOrdinal r.year r.month r.day)) = true :=
        (Bool.and_eq_true_iff.mp hgok).2
      refine ih _ _ _ h ?_
      obtain ⟨hpw, hbd, hnone⟩ := hinv
      refine ⟨hpw, ?_, ?_⟩
      · intro d hd c hcg
        injection hcg with hcg'
        rw [← hcg']
        cases hdate : st.date with
        | none =>
            rw [hnone hdate] at hd
            cases hd
        | some cd =>
            rw [hdate] at hok
            exact le_trans (hbd d hd cd hdate) (of_decide_eq_true hok)
      · intro hn
        cases hn

theorem applyTstep_DateInv (recs : List (List Int)) :
    ∀ st st' : ScanState, applyTstep st recs = Except.ok st' →
      DateInv st → DateInv st' := by
  induction recs with
  | nil =>
      intro st st' h hinv
      cases h
      exact hinv
  | cons steplist rest ih =>
      intro st st' h hinv
      simp only [applyTstep] at h
      by_cases hd : steplist.sum ≤ 0
      · rw [if_pos hd] at h
        cases h
      · rw [if_neg hd] at h
        cases hdate : st.date with
        | none =>
            rw [hdate] at h
            cases h
        | some d0 =>
            rw [hdate] at h
            refine ih _ _ h ?_
            obtain ⟨hpw, hbd, hnone⟩ := hinv
            refine ⟨hpw, ?_, ?_⟩
            · intro d hdm c hcg
              injection hcg with hcg'
              rw [← hcg']
              exact le_trans (hbd d hdm d0 hdate) (Nat.le_add_right _ _)
            · intro hn
              cases hn

theorem stepKwG_DateInv (w : Bool) (st : ScanState) (g : Bool) (kw : Kw)
    (st' : ScanState) (h : stepKwG w (st, g) kw = Except.ok (st', true))
    (hinv : DateInv st) : DateInv st' := by
  cases kw with
  | dates recs =>
      have hpair : applyDatesG (emitSnapshot st) g recs = (st', true) := by
        simpa [stepKwG] using h
      exact applyDatesG_DateInv recs _ _ _ hpair (emitSnapshot_DateInv st hinv)
  | start recs =>
      have hpair : applyDatesG (emitSnapshot st) g recs = (st', true) := by
        simpa [stepKwG] using h
      exact applyDatesG_DateInv recs _ _ _ hpair (emitSnapshot_DateInv st hinv)
  | tstep recs =>
      cases ht : applyTstep (emitSnapshot st) recs with
      | error e =>
          rw [show stepKwG w (st, g) (Kw.tstep recs) = Except.error e by
            simp [stepKwG, stepKw, ht, Except.map]] at h
          cases h
      | ok s =>
          rw [show stepKwG w (st, g) (Kw.tstep recs) = Except.ok (s, g) by
            simp [stepKwG, stepKw, ht, Except.map]] at h
          have hs : s = st' := by
            have := (Except.ok.injEq _ _).mp h
            exact congrArg Prod.fst this
          rw [← hs]
          exact applyTstep_DateInv recs _ _ ht (emitSnapshot_DateInv st hinv)
  | gruptree recs =>
      have hh : ({ st with
          found_gruptree := true
          currentedges := recs.foldl (fun m e => dictInsert m e "GRUPTREE")
            st.currentedges }, g) = (st', true) := by
        simpa [stepKwG, stepKw, Except.map] using h
      rw [Prod.mk.injEq] at hh
      rw [← hh.1]
      exact hinv
  | welspecs recs =>
      by_cases hw : w = true
      · have hh : ({ st with
            found_welspecs := true
            currentedges := recs.foldl (fun m e => dictInsert m e "WELSPECS")
              st.currentedges }, g) = (st', true) := by
          simpa [stepKwG, stepKw, hw, Except.map] using h
        rw [Prod.mk.injEq] at hh
        rw [← hh.1]
        exact hinv
      · have hh : (st, g) = (st', true) := by
          simpa [stepKwG, stepKw, hw, Except.map] using h
        rw [Prod.mk.injEq] at hh
        rw [← hh.1]
        exact hinv
  | grupnet recs =>
      have hh : ({ st with
          found_grupnet := true
          grupnetrecords := st.grupnetrecords ++ recs.map grupnetData }, g) =
          (st', true) := by
        simpa [stepKwG, stepKw, Except.map] using h
      rw [Prod.mk.injEq] at hh
      rw [← hh.1]
      exact hinv
  | other =>
      have hh : (st, g) = (st', true) := by
        simpa [stepKwG, stepKw, Except.map] using h
      rw [Prod.mk.injEq] at hh
      rw [← hh.1]
      exact hinv

theorem scanKwsG_DateInv (w : Bool) (deck : List Kw) :
    ∀ (st : ScanState) (g : Bool) (st' : ScanState),
      scanKwsG w (st, g) deck = Except.ok (st', true) → DateInv st →
        DateInv st' := by
  induction deck with
  | nil =>
      intro st g st' h hinv
      have hp : st = st' ∧ g = true := by simpa [scanKwsG, Prod.mk.injEq] using h
      rw [← hp.1]
      exact hinv
  | cons kw rest ih =>
      intro st g st' h hinv
      cases hstep : stepKwG w (st, g) kw with
      | error e =>
          rw [show scanKwsG w (st, g) (kw :: rest) = Except.error e by
            simp [scanKwsG, hstep]] at h
          cases h
      | ok p =>
          rw [show scanKwsG w (st, g) (kw :: rest) = scanKwsG w p rest by
            simp [scanKwsG, hstep]] at h
          by_cases hg : p.2 = true
          · have hstep' : stepKwG w (st, g) kw = Except.ok (p.1, true) := by
              rw [hstep, show p = (p.1, p.2) from rfl, hg]
            have hinv1 := stepKwG_DateInv w st g kw p.1 hstep' hinv
            refine ih p.1 true st' ?_ hinv1
            rw [show ((p.1, true) : ScanState × Bool) = p by
              rw [show p = (p.1, p.2) from rfl, hg]]
            exact h
          · have hg' : p.2 = false := by
              revert hg
              cases p.2 <;> simp
            have hfinal := scanKwsG_ghost_false w rest p.1 (st', true) (by
              rw [show ((p.1, false) : ScanState × Bool) = p by
                rw [show p = (p.1, p.2) from rfl, hg']]
              exact h)
            simp at hfinal

/-- C7, amended: the DATE values of the output table are non-decreasing in
emission order for every run in which each absolute date set by a DATES
or START record is at least the date it replaces (TSTEP advances are
always forward, so only backward absolute dates can break monotonicity,
as the counterexample shows). -/
theorem deck2df_dates_monotone (deck : List Kw) (sd : Option Nat) (w : Bool)
    (rows : List Row) (hok : deck2df deck sd w = Except.ok rows)
    (hmono : deckDatesMonotone deck sd w = true) :
    List.Pairwise (· ≤ ·) (rows.filterMap Row.date) := by
  unfold deck2df at hok
  cases hscan : scanDeck deck sd w with
  | error e =>
      rw [hscan] at hok
      cases hok
  | ok st =>
      rw [hscan] at hok
      have hrows : rows = finishScan st := by
        have := (Except.ok.injEq _ _).mp hok.symm
        exact this
      have hscan' : scanKws w (initState sd) deck = Except.ok st := hscan
      obtain ⟨g', hG⟩ := scanKws_to_G w deck (initState sd) true st hscan'
      have hg' : g' = true := by
        unfold deckDatesMonotone at hmono
        rw [hG] at hmono
        exact hmono
      rw [hg'] at hG
      have hinit : DateInv (initState sd) := by
        refine ⟨List.Pairwise.nil, ?_, fun _ => rfl⟩
        intro d hd
        cases hd
      have hinv : DateInv st := scanKwsG_DateInv w deck (initState sd) true st hG hinit
      rw [hrows]
      unfold finishScan
      by_cases hfl : (st.found_gruptree || st.found_welspecs) = true
      · rw [if_pos hfl]
        cases hdate : st.date with
        | none =>
            rw [List.filterMap_append, filterMap_date_map_mkRow_none,
              hinv.2.2 hdate]
            exact List.Pairwise.nil
        | some c =>
            exact (pairwise_snapshot_append st hinv c
              (by intro cd hcd; rw [hcd] at hdate; injection hdate with hh; rw [hh])
              st.currentedges st.grupnetrecords).1
      · rw [if_neg hfl]
        exact hinv.1

/-- Witness for the amended C7 theorem: on the c4deck run the date
assignments are monotone and the output dates are non-decreasing. -/
theorem deck2df_dates_monotone_witness :
    List.Pairwise (· ≤ ·)
      (([⟨some (toOrdinal 1900 1 1), "C", "P", "GRUPTREE", []⟩,
         ⟨some (toOrdinal 1900 1 11), "C", "P", "GRUPTREE", []⟩,
         ⟨some (toOrdinal 1900 1 11), "W", "G", "WELSPECS", []⟩] :
           List Row).filterMap Row.date) :=
  deck2df_dates_monotone c4deck none true _ rfl rfl

/-! ### C8 (amended): round trip between edge rows and the forest -/

theorem mem_dedupAux {α : Type} [DecidableEq α] (l : List α) :
    ∀ (seen : List α) (a : α), a ∈ dedupAux seen l ↔ a ∈ l ∧ a ∉ seen := by
  induction l with
  | nil => intro seen a; simp [dedupAux]
  | cons e rest ih =>
      intro seen a
      by_cases he : e ∈ seen
      · rw [show dedupAux seen (e :: rest) = dedupAux seen rest by
          simp only [dedupAux, if_pos he]]
        rw [ih seen a]
        constructor
        · rintro ⟨h1, h2⟩
          exact ⟨List.mem_cons_of_mem e h1, h2⟩
        · rintro ⟨h1, h2⟩
          rcases List.mem_cons.mp h1 with rfl | h1
          · exact absurd he h2
          · exact ⟨h1, h2⟩
      · rw [show dedupAux seen (e :: rest) = e :: dedupAux (e :: seen) rest by
          simp only [dedupAux, if_neg he]]
        constructor
        · intro hmem
          rcases List.mem_cons.mp hmem with rfl | hmem
          · exact ⟨List.mem_cons_self a rest, he⟩
          · obtain ⟨h1, h2⟩ := (ih (e :: seen) a).mp hmem
            exact ⟨List.mem_cons_of_mem e h1,
              fun hx => h2 (List.mem_cons_of_mem e hx)⟩
        · rintro ⟨h1, h2⟩
          rcases List.mem_cons.mp h1 with rfl | h1
          · exact List.mem_cons_self a _
          · by_cases hae : a = e
            · rw [hae]
              exact List.mem_cons_self e _
            · refine List.mem_cons_of_mem e ((ih (e :: seen) a).mpr ⟨h1, ?_⟩)
              intro hx
              rcases List.mem_cons.mp hx with hh | hh
              · exact hae hh
              · exact h2 hh

theorem mem_dedupKeepFirst {α : Type} [DecidableEq α] (l : List α) (a : α) :
    a ∈ dedupKeepFirst l ↔ a ∈ l := by
  unfold dedupKeepFirst
  rw [mem_dedupAux]
  simp

theorem mem_childPairs (cp : String × String) (parent : String)
    (L : List (String × GTree)) :
    cp ∈ childPairs parent L ↔
      ∃ c t, (c, t) ∈ L ∧ (cp = (c, parent) ∨ cp ∈ treePairs c t) := by
  induction L with
  | nil => simp [childPairs]
  | cons ct rest ih =>
      obtain ⟨c, t⟩ := ct
      rw [show childPairs parent ((c, t) :: rest) =
        (c, parent) :: (treePairs c t ++ childPairs parent rest) from rfl]
      simp only [List.mem_cons, List.mem_append]
      constructor
      · rintro (rfl | h)
        · exact ⟨c, t, Or.inl rfl, Or.inl rfl⟩
        · rcases h with h | h
          · exact ⟨c, t, Or.inl rfl, Or.inr h⟩
          · obtain ⟨c', t', hmem, hcp⟩ := ih.mp h
            exact ⟨c', t', Or.inr hmem, hcp⟩
      · rintro ⟨c', t', hmem, hcp⟩
        rcases hmem with heq | hmem
        · injection heq with h1 h2
          rw [h1, h2] at hcp
          rcases hcp with hcp | hcp
          · exact Or.inl hcp
          · exact Or.inr (Or.inl hcp)
        · exact Or.inr (Or.inr (ih.mpr ⟨c', t', hmem, hcp⟩))

theorem treePairs_sub (edges : List (String × String)) :
    ∀ (f : Nat) (name : String) (cp : String × String),
      cp ∈ treePairs name (subtree edges f name) → cp ∈ edges := by
  intro f
  induction f with
  | zero =>
      intro name cp h
      simp [subtree, treePairs, childPairs] at h
  | succ f ih =>
      intro name cp h
      rw [show subtree edges (f + 1) name =
        GTree.node ((edges.filter (fun e => decide (e.2 = name))).map
          (fun e => (e.1, subtree edges f e.1))) from rfl] at h
      rw [show treePairs name (GTree.node
        ((edges.filter (fun e => decide (e.2 = name))).map
          (fun e => (e.1, subtree edges f e.1)))) =
        childPairs name ((edges.filter (fun e => decide (e.2 = name))).map
          (fun e => (e.1, subtree edges f e.1))) from rfl] at h
      obtain ⟨c, t, hmem, hcp⟩ := (mem_childPairs cp name _).mp h
      obtain ⟨e, hef, heq⟩ := List.mem_map.mp hmem
      injection heq with h1 h2
      obtain ⟨hee, he2⟩ := List.mem_filter.mp hef
      have he2' : e.2 = name := of_decide_eq_true he2
      rcases hcp with rfl | hcp
      · have : (c, name) = e := by
          rw [← h1, ← he2']
        rw [this]
        exact hee
      · refine ih e.1 cp ?_
        rw [h1] at h2
        rw [h1, h2]
        exact hcp

theorem treePairs_mono (edges : List (String × String)) :
    ∀ (f g : Nat), f ≤ g → ∀ (name : String) (cp : String × String),
      cp ∈ treePairs name (subtree edges f name) →
      cp ∈ treePairs name (subtree edges g name) := by
  intro f
  induction f with
  | zero =>
      intro g hg name cp h
      simp [subtree, treePairs, childPairs] at h
  | succ f ih =>
      intro g hg name cp h
      cases g with
      | zero => omega
      | succ g' =>
          have hfg : f ≤ g' := Nat.succ_le_succ_iff.mp hg
          obtain ⟨c, t, hmem, hcp⟩ := (mem_childPairs cp name _).mp h
          obtain ⟨e, hef, heq⟩ := List.mem_map.mp hmem
          injection heq with h1 h2
          refine (mem_childPairs cp name _).mpr ?_
          refine ⟨e.1, subtree edges g' e.1, List.mem_map.mpr ⟨e, hef, rfl⟩, ?_⟩
          rcases hcp with rfl | hcp
          · exact Or.inl (by rw [h1])
          · refine Or.inr (ih g' hfg e.1 cp ?_)
            rw [h1] at h2
            rw [h1, h2]
            exact hcp

theorem edge_in_treePairs (edges : List (String × String)) (c name : String)
    (f : Nat) (h : (c, name) ∈ edges) :
    (c, name) ∈ treePairs name (subtree edges (f + 1) name) := by
  refine (mem_childPairs _ name _).mpr ?_
  refine ⟨c, subtree edges f c, ?_, Or.inl rfl⟩
  refine List.mem_map.mpr ⟨(c, name), ?_, rfl⟩
  refine List.mem_filter.mpr ⟨h, by simp⟩

theorem treePairs_nest (edges : List (String × String)) (name gp : String)
    (f : Nat) (hedge : (name, gp) ∈ edges) (cp : String × String)
    (h : cp ∈ treePairs name (subtree edges f name)) :
    cp ∈ treePairs gp (subtree edges (f + 1) gp) := by
  refine (mem_childPairs cp gp _).mpr ?_
  refine ⟨name, subtree edges f name, ?_, Or.inr h⟩
  refine List.mem_map.mpr ⟨(name, gp), ?_, rfl⟩
  refine List.mem_filter.mpr ⟨hedge, by simp⟩

theorem upchain_to_root (edges : List (String × String)) :
    ∀ (f : Nat) (name : String), upchain edges f name = true →
      ∀ (F : Nat) (cp : String × String),
        cp ∈ treePairs name (subtree edges F name) →
        ∃ r, isRoot edges r = true ∧
          cp ∈ treePairs r (subtree edges (F + f + 1) r) := by
  intro f
  induction f with
  | zero =>
      intro name hchain F cp hcp
      exact ⟨name, hchain,
        treePairs_mono edges F (F + 0 + 1) (by omega) name cp hcp⟩
  | succ f ih =>
      intro name hchain F cp hcp
      rw [show upchain edges (f + 1) name =
        (isRoot edges name ||
          edges.any (fun e => decide (e.1 = name) && upchain edges f e.2))
        from rfl] at hchain
      rcases Bool.or_eq_true_iff.mp hchain with hroot | hany
      · exact ⟨name, hroot,
          treePairs_mono edges F (F + (f + 1) + 1) (by omega) name cp hcp⟩
      · rw [List.any_eq_true] at hany
        obtain ⟨e, he, hcond⟩ := hany
        obtain ⟨h1, h2⟩ := Bool.and_eq_true_iff.mp hcond
        have h1' : e.1 = name := of_decide_eq_true h1
        have hedge : (name, e.2) ∈ edges := by
          rw [← h1']
          exact he
        have hnest := treePairs_nest edges name e.2 F hedge cp hcp
        obtain ⟨r, hr, hcp'⟩ := ih e.2 h2 (F + 1) cp hnest
        refine ⟨r, hr, ?_⟩
        have harith : F + 1 + f + 1 = F + (f + 1) + 1 := by omega
        rw [← harith]
        exact hcp'

theorem mem_rootsOf (edges : List (String × String)) (r : String) :
    r ∈ rootsOf edges ↔ isRoot edges r = true := by
  unfold rootsOf isRoot
  rw [mem_dedupKeepFirst, List.mem_filter]
  constructor
  · rintro ⟨hpar, hnc⟩
    have hnc' : r ∉ List.map (fun e => e.1) edges := of_decide_eq_true hnc
    rw [Bool.and_eq_true_iff]
    constructor
    · rw [List.any_eq_true]
      obtain ⟨e, he, heq⟩ := List.mem_map.mp hpar
      exact ⟨e, he, decide_eq_true heq⟩
    · cases hb : edges.any (fun e => decide (e.1 = r)) with
      | false => rfl
      | true =>
          rw [List.any_eq_true] at hb
          obtain ⟨e, he, heq⟩ := hb
          exact absurd (List.mem_map.mpr ⟨e, he, of_decide_eq_true heq⟩) hnc'
  · intro hroot
    obtain ⟨h1, h2⟩ := Bool.and_eq_true_iff.mp hroot
    constructor
    · rw [List.any_eq_true] at h1
      obtain ⟨e, he, heq⟩ := h1
      exact List.mem_map.mpr ⟨e, he, of_decide_eq_true heq⟩
    · refine decide_eq_true ?_
      intro hmem
      obtain ⟨e, he, heq⟩ := List.mem_map.mp hmem
      have hany : edges.any (fun e => decide (e.1 = r)) = true := by
        rw [List.any_eq_true]
        exact ⟨e, he, decide_eq_true heq⟩
      rw [hany] at h2
      simp at h2

/-- C8, amended: for one date of edge rows in which the parent chain of
every edge reaches a root (in particular for every acyclic snapshot), the
set of (child, parent) pairs collected from the forest returned by
gruptreedf2dict equals the set of (child, parent) pairs of the input
rows.  The counterexample shows the equality fails for a cyclic edge
set. -/
theorem gruptreedf2dict_roundtrip (rows : List Row)
    (h : ∀ e ∈ dedupKeepFirst (edgesOf rows),
      upchain (dedupKeepFirst (edgesOf rows))
        (dedupKeepFirst (edgesOf rows)).length e.2 = true) :
    ∀ cp, cp ∈ forestPairs (gruptreedf2dict rows) ↔ cp ∈ edgesOf rows := by
  intro cp
  by_cases hrows : rows.isEmpty = true
  · have hnil : rows = [] := by
      cases rows with
      | nil => rfl
      | cons a l => simp [List.isEmpty] at hrows
    rw [hnil]
    simp [gruptreedf2dict, forestPairs, edgesOf]
  · constructor
    · intro hcp
      simp only [gruptreedf2dict] at hcp
      rw [if_neg hrows] at hcp
      unfold forestPairs at hcp
      rw [List.mem_flatMap] at hcp
      obtain ⟨d, hd, hcp⟩ := hcp
      obtain ⟨_, _, rfl⟩ := List.mem_map.mp hd
      rw [List.mem_flatMap] at hcp
      obtain ⟨nt, hnt, hcp⟩ := hcp
      obtain ⟨r, hr, rfl⟩ := List.mem_map.mp hnt
      exact (mem_dedupKeepFirst _ cp).mp (treePairs_sub _ _ r cp hcp)
    · intro hcp
      have hcpD : cp ∈ dedupKeepFirst (edgesOf rows) :=
        (mem_dedupKeepFirst _ cp).mpr hcp
      have hup := h cp hcpD
      have hstart : (cp.1, cp.2) ∈
          treePairs cp.2 (subtree (dedupKeepFirst (edgesOf rows)) (0 + 1) cp.2) :=
        edge_in_treePairs (dedupKeepFirst (edgesOf rows)) cp.1 cp.2 0 hcpD
      obtain ⟨r, hroot, hmem⟩ := upchain_to_root (dedupKeepFirst (edgesOf rows))
        (dedupKeepFirst (edgesOf rows)).length cp.2 hup 1 (cp.1, cp.2) hstart
      have harith : 1 + (dedupKeepFirst (edgesOf rows)).length + 1 =
          (dedupKeepFirst (edgesOf rows)).length + 2 := by omega
      rw [harith] at hmem
      have hrmem : r ∈ rootsOf (dedupKeepFirst (edgesOf rows)) :=
        (mem_rootsOf _ r).mpr hroot
      simp only [gruptreedf2dict]
      rw [if_neg hrows]
      unfold forestPairs
      rw [List.mem_flatMap]
      refine ⟨(rootsOf (dedupKeepFirst (edgesOf rows))).map
        (fun r => (r, subtree (dedupKeepFirst (edgesOf rows))
          ((dedupKeepFirst (edgesOf rows)).length + 2) r)), ?_, ?_⟩
      · exact List.mem_map.mpr ⟨r, hrmem, rfl⟩
      · rw [List.mem_flatMap]
        refine ⟨(r, subtree (dedupKeepFirst (edgesOf rows))
          ((dedupKeepFirst (edgesOf rows)).length + 2) r),
          List.mem_map.mpr ⟨r, hrmem, rfl⟩, ?_⟩
        exact hmem

/-- Witness for the amended C8 theorem: an acyclic two-edge forest (F the
root, A below F, B below A) round-trips the edge (B, A). -/
theorem gruptreedf2dict_roundtrip_witness :
    (("B", "A") ∈ forestPairs (gruptreedf2dict c8wrows)) ↔
      ("B", "A") ∈ edgesOf c8wrows :=
  gruptreedf2dict_roundtrip c8wrows (by decide) ("B", "A")

end Ecl2df
